import Mathlib

/-!
Shallow embedding of the security-group-rules logic of the
`terraform-provider-exoscale` repository
(`exoscale/resource_exoscale_security_group_rules.go`), together with proofs
of the specified properties of rule identification (`ruleToID`), template
expansion (`securityGroupRulesToAdd`), removal-set computation
(`securityGroupRulesToRemove`) and per-template reconciliation (`readRules`).

Go pointers (`*string`, `*uint16`, `*int64`) are modelled as `Option`;
`net.IPNet` is modelled by its `String()` rendering; external calls
(`client.GetSecurityGroup`, `client.FindSecurityGroup`, `net.ParseCIDR`) are
parameters of the embedded functions; `schema.Set` is modelled as a
duplicate-free list in its iteration order, with `addUniq` playing the role
of `Set.Add`.
-/

namespace SGRules

/-- Model of `egoscale.SecurityGroupRule`: every pointer field is an
`Option`, and the `*net.IPNet` network is kept as its `String()` form. -/
structure SecurityGroupRule where
  id : Option String := none
  description : Option String := none
  network : Option String := none
  protocol : Option String := none
  icmpType : Option Int := none
  icmpCode : Option Int := none
  startPort : Option Nat := none
  endPort : Option Nat := none
  securityGroupID : Option String := none
  flowDirection : Option String := none
deriving Repr, DecidableEq

/-- Model of one `ingress`/`egress` rule block of the Terraform state
(the `map[string]interface{}` handled by `readRules` and the
`securityGroupRulesTo{Add,Remove}` helpers).  Set-typed attributes are
duplicate-free lists in iteration order. -/
@[ext]
structure RuleState where
  cidrList : List String := []
  description : String := ""
  icmpCode : Int := 0
  icmpType : Int := 0
  ports : List String := []
  protocol : String := ""
  userSecurityGroupList : List String := []
  ids : List String := []
deriving Repr, DecidableEq

/-- `schema.Set.Add`: adding an element already present is a no-op. -/
def addUniq (xs : List String) (x : String) : List String :=
  if x ∈ xs then xs else xs ++ [x]

/-- `strings.ToUpper` (the inputs handled here are ASCII protocol and
group names). -/
def strToUpper (s : String) : String :=
  ⟨s.data.map Char.toUpper⟩

/-- `strings.ToLower` (the inputs handled here are ASCII protocol and
group names). -/
def strToLower (s : String) : String :=
  ⟨s.data.map Char.toLower⟩

/-- `strings.ReplaceAll(s, "V6", "v6")` at the character level:
non-overlapping left-to-right replacement of every occurrence. -/
def replaceV6 : List Char → List Char
  | [] => []
  | 'V' :: '6' :: rest => 'v' :: '6' :: replaceV6 rest
  | c :: rest => c :: replaceV6 rest

/-- `strings.ReplaceAll(s, "V6", "v6")`. -/
def strReplaceV6 (s : String) : String :=
  ⟨replaceV6 s.data⟩

/-- `strings.HasPrefix(s, pre)` at the character level. -/
def strStartsWith (s pre : String) : Bool :=
  pre.data.isPrefixOf s.data

/-- `strings.Split(s, sep)` for a single-character separator, at the
character level. -/
def splitChar (sep : Char) : List Char → List (List Char)
  | [] => [[]]
  | c :: rest =>
      if c = sep then [] :: splitChar sep rest
      else
        match splitChar sep rest with
        | [] => [[c]]
        | p :: ps => (c :: p) :: ps

/-- `strings.Split(s, sep)` for a single-character separator. -/
def strSplit (s : String) (sep : Char) : List String :=
  (splitChar sep s.data).map (fun l => ⟨l⟩)

/-- Base-10 digit parsing of `strconv.ParseUint`: `none` on a malformed
numeral. -/
def parseDigits : List Char → Nat → Option Nat
  | [], acc => some acc
  | c :: rest, acc =>
      if c.isDigit then parseDigits rest (acc * 10 + (c.toNat - 48))
      else none

/-- The numeral syntax accepted by `strconv.ParseUint(s, 10, _)`: one or
more decimal digits. -/
def strToNatOpt (s : String) : Option Nat :=
  match s.data with
  | [] => none
  | l => parseDigits l 0

/-- Go dereference `*p` of a pointer modelled as `Option`: a `none`
dereference is a run-time fault, modelled as an `Except.error`. -/
def deref {α : Type} (x : Option α) : Except String α :=
  match x with
  | some v => Except.ok v
  | none => Except.error "nil pointer dereference"

/-- Decidable equality of `Except` results, for evaluating the embedded
functions on concrete inputs. -/
instance {e a : Type} [DecidableEq e] [DecidableEq a] :
    DecidableEq (Except e a) := fun x y =>
  match x, y with
  | Except.error u, Except.error v =>
      if h : u = v then Decidable.isTrue (by rw [h])
      else Decidable.isFalse (fun hc => h (Except.error.inj hc))
  | Except.error _, Except.ok _ =>
      Decidable.isFalse (fun hc => Except.noConfusion hc)
  | Except.ok _, Except.error _ =>
      Decidable.isFalse (fun hc => Except.noConfusion hc)
  | Except.ok u, Except.ok v =>
      if h : u = v then Decidable.isTrue (by rw [h])
      else Decidable.isFalse (fun hc => h (Except.ok.inj hc))

/-- Modelled from the spec: helper `defaultString(p, def)` used by the repo
but not among the provided sources — yields the pointed-to string, or the
default when the pointer is nil. -/
def defaultString (p : Option String) (d : String) : String :=
  p.getD d

/-- Modelled from the spec: helper `nonEmptyStringPtr(s)` used by the repo
but not among the provided sources — yields a pointer to `s`, or nil when
`s` is empty. -/
def nonEmptyStringPtr (s : String) : Option String :=
  if s = "" then none else some s

/-- `ruleToID` (lines 763-812): derives the composite identifier of one
backing rule.  `getSG` models `client.GetSecurityGroup` restricted to the
group name (`id ↦ *group.Name`); a failed lookup is the fallible external
call of the source. -/
def ruleToID (getSG : String → Option String) (r : SecurityGroupRule) :
    Except String String := do
  let protoRaw ← deref r.protocol
  let protocol := strToLower protoRaw
  if strStartsWith protocol "icmp" then
    let rid ← deref r.id
    let t ← deref r.icmpType
    let c ← deref r.icmpCode
    return rid ++ "_" ++ protocol ++ "_" ++ toString t ++ ":" ++ toString c
  else
    let name ← (match r.network with
      | some n => Except.ok n
      | none => do
          let sgid ← deref r.securityGroupID
          (match getSG sgid with
           | some nm => Except.ok nm
           | none => Except.error "unable to retrieve Security Group"))
    let rid ← deref r.id
    if protocol = "tcp" ∨ protocol = "udp" then
      let s ← deref r.startPort
      let e ← deref r.endPort
      return rid ++ "_" ++ protoRaw ++ "_" ++ name ++ "_" ++
        toString s ++ "-" ++ toString e
    else
      return rid ++ "_" ++ protoRaw ++ "_" ++ name

/-- Accumulator of the per-template walk of `readRules` (lines 687-741):
the rule block being mutated in place, the fresh observed sets, the id set
undergoing removals, and `actualLen`. -/
@[ext]
structure WalkAcc where
  rule : RuleState
  cidrList : List String
  usgList : List String
  ports : List String
  ids : List String
  actualLen : Nat
deriving Repr, DecidableEq

/-- One iteration of the `for _, id := range ids.List()` loop of
`readRules` (lines 700-741).  `lookup` models the `fetchRuleFunc`;
`getSG` models `client.GetSecurityGroup` restricted to the group name. -/
def walkStep (getSG : String → Option String)
    (lookup : String → Option SecurityGroupRule)
    (acc : WalkAcc) (id : String) : Except String WalkAcc :=
  match lookup id with
  | none => Except.ok { acc with ids := acc.ids.erase id }
  | some r => do
      let protoRaw ← deref r.protocol
      let protocol := strToUpper protoRaw
      let rule := { acc.rule with
        protocol := protocol
        description := defaultString r.description "" }
      let cidrList := (match r.network with
        | some n => addUniq acc.cidrList n
        | none => acc.cidrList)
      let usgList ← (match r.securityGroupID with
        | some gid =>
            (match getSG gid with
             | some name => Except.ok (addUniq acc.usgList name)
             | none => Except.error "unable to retrieve Security Group")
        | none => Except.ok acc.usgList)
      if strStartsWith protocol "ICMP" then do
        let code ← deref r.icmpCode
        let typ ← deref r.icmpType
        let rule := { rule with
          protocol := strReplaceV6 protocol
          icmpCode := code
          icmpType := typ }
        return { acc with
          rule := rule, cidrList := cidrList, usgList := usgList,
          actualLen := acc.actualLen + 1 }
      else if protocol = "TCP" ∨ protocol = "UDP" then
        let s := r.startPort.getD 0
        let e := r.endPort.getD 0
        let portStr := if s = e then toString s
          else toString s ++ "-" ++ toString e
        return { acc with
          rule := rule, cidrList := cidrList, usgList := usgList,
          ports := addUniq acc.ports portStr,
          actualLen := acc.actualLen + 1 }
      else
        return { acc with
          rule := rule, cidrList := cidrList, usgList := usgList,
          actualLen := acc.actualLen + 1 }

/-- The complete walk of one rule block's `ids` set (lines 694-741). -/
def walkIds (getSG : String → Option String)
    (lookup : String → Option SecurityGroupRule)
    (rule : RuleState) : Except String WalkAcc :=
  rule.ids.foldlM (walkStep getSG lookup)
    ⟨rule, [], [], [], rule.ids, 0⟩

/-- The body of `readRules` for one rule block (lines 674-757): counts the
declared sets, walks the ids, applies the ambiguous-drift port-clearing
policy (lines 743-751) and overwrites the observed attributes. -/
def reconcileRule (getSG : String → Option String)
    (lookup : String → Option SecurityGroupRule)
    (rule : RuleState) : Except String RuleState := do
  let cidrLen := rule.cidrList.length
  let userSecurityGroupLen := rule.userSecurityGroupList.length
  let portsLen := rule.ports.length
  let expectedLen := (cidrLen + userSecurityGroupLen) * portsLen
  let acc ← walkIds getSG lookup rule
  let ports := if acc.cidrList.length = cidrLen ∧ acc.ports.length = portsLen
      ∧ acc.usgList.length = userSecurityGroupLen
      ∧ expectedLen ≠ acc.actualLen
    then ([] : List String) else acc.ports
  return { acc.rule with
    ids := acc.ids
    ports := ports
    cidrList := acc.cidrList
    userSecurityGroupList := acc.usgList }

/-- `readRules` over the whole `ingress`/`egress` set: each block is
reconciled in place. -/
def readRules (getSG : String → Option String)
    (lookup : String → Option SecurityGroupRule)
    (rules : List RuleState) : Except String (List RuleState) :=
  rules.mapM (reconcileRule getSG lookup)

/-- `strconv.ParseUint(s, 10, 16)` with the error discarded as in
`preparePorts`: syntax errors leave the Go zero value, range errors leave
the maximum `uint16`. -/
def parseUint16 (s : String) : Nat :=
  match strToNatOpt s with
  | some n => if n ≤ 65535 then n else 65535
  | none => 0

/-- `preparePorts` (lines 816-834): `START[-END]` strings to start/end
couples. -/
def preparePorts (values : List String) : List (Nat × Nat) :=
  values.map (fun v =>
    let ps := strSplit v '-'
    let startPort := parseUint16 (ps.headD "")
    let endPort := if ps.length = 2 then parseUint16 (ps.getD 1 "")
      else startPort
    (startPort, endPort))

/-- The base-rule list of `securityGroupRulesToAdd` (lines 859-885): one
base rule per port range for TCP/UDP, a single base rule for ICMP-family
and other protocols. -/
def baseRulesOf (rule : RuleState) : List SecurityGroupRule :=
  let protocol := strToLower rule.protocol
  let base : SecurityGroupRule :=
    { description := nonEmptyStringPtr rule.description }
  if strStartsWith protocol "icmp" then
    [{ base with
        protocol := some protocol
        icmpCode := some rule.icmpCode
        icmpType := some rule.icmpType }]
  else if protocol = "tcp" ∨ protocol = "udp" then
    (preparePorts rule.ports).map (fun pr =>
      { base with
          protocol := some protocol
          startPort := some pr.1
          endPort := some pr.2 })
  else
    [{ base with protocol := some protocol }]

/-- `securityGroupRulesToAdd` (lines 853-916).  `findSG` models
`client.FindSecurityGroup` restricted to the group ID (`name ↦ *group.ID`);
`parseCIDR` models `net.ParseCIDR` yielding the parsed network's `String()`
rendering, `none` on a malformed CIDR. -/
def securityGroupRulesToAdd (findSG : String → Option String)
    (parseCIDR : String → Option String)
    (rule : RuleState) : Except String (List SecurityGroupRule) := do
  let baseRules := baseRulesOf rule
  let cidrExpanded ← baseRules.foldlM (fun out r =>
      rule.cidrList.foldlM (fun out c =>
        match parseCIDR c with
        | some network =>
            Except.ok (out ++ [{ r with network := some network }])
        | none => Except.error "invalid CIDR address") out)
    ([] : List SecurityGroupRule)
  let expandedRules ← baseRules.foldlM (fun out r =>
      rule.userSecurityGroupList.foldlM (fun out x =>
        match findSG x with
        | some sgID =>
            Except.ok (out ++ [{ r with securityGroupID := some sgID }])
        | none =>
            Except.error ("unable to retrieve Security Group " ++ x)) out)
    cidrExpanded
  return expandedRules

/-- `strings.SplitN(s, "_", 2)`: with the single-character separator `_`
this is the part before the first `_` and the rest after it, or the whole
string when no `_` occurs. -/
def splitN2 (s : String) : List String :=
  if '_' ∈ s.data then
    [⟨s.data.takeWhile (fun c => c ≠ '_')⟩,
     ⟨(s.data.dropWhile (fun c => c ≠ '_')).tail⟩]
  else [s]

/-- `securityGroupRulesToRemove` (lines 838-849): one minimal rule per
composite identifier, keyed by the identifier, carrying the backing ID
found before the first `_`.  The Go map is modelled as an association
list in iteration order; the function performs no external calls. -/
def securityGroupRulesToRemove (rule : RuleState) :
    List (String × SecurityGroupRule) :=
  rule.ids.map (fun identifier =>
    let metas := splitN2 identifier
    let id := metas.headD ""
    (identifier, { id := some id }))

/-- The per-created-rule loop of `resourceSecurityGroupRulesCreate`
(lines 411-428): the created rule is identified and the identifier added
to the block's `ids` set.  The source discards the `ruleToID` error
(line 425 computes `diag.FromErr(err)` without returning it), so on a
failed lookup the Go zero-value identifier `""` is added; the embedding
reproduces this.  `create` models `client.CreateSecurityGroupRule`. -/
def createRuleIDs (getSG : String → Option String)
    (create : SecurityGroupRule → Except String SecurityGroupRule)
    (flowDirection : String)
    (rulesToAdd : List SecurityGroupRule)
    (ids : List String) : Except String (List String) :=
  rulesToAdd.foldlM (fun ids r => do
    let r := { r with flowDirection := nonEmptyStringPtr flowDirection }
    let created ← create r
    let id := (match ruleToID getSG created with
      | Except.ok id => id
      | Except.error _ => "")
    return addUniq ids id) ids

/-! Specification-level decomposition of the walk: the effect of one
present backing rule on each accumulator component, and the pure fold the
monadic walk computes whenever it succeeds.  These are the vocabulary in
which the reconciliation theorems are stated and proved. -/

/-- The backing rules actually found while walking an id list. -/
def presentRules (lookup : String → Option SecurityGroupRule)
    (l : List String) : List SecurityGroupRule :=
  l.filterMap lookup

/-- Effect of one present backing rule on the observed CIDR set. -/
def cidrStep (acc : List String) (r : SecurityGroupRule) : List String :=
  match r.network with
  | some n => addUniq acc n
  | none => acc

/-- Effect of one present backing rule on the observed group-peer set. -/
def usgStep (getSG : String → Option String) (acc : List String)
    (r : SecurityGroupRule) : List String :=
  match r.securityGroupID with
  | some gid =>
      (match getSG gid with
       | some name => addUniq acc name
       | none => acc)
  | none => acc

/-- The `START[-END]` rendering of a backing rule's port range used by
`readRules`. -/
def portString (r : SecurityGroupRule) : String :=
  let s := r.startPort.getD 0
  let e := r.endPort.getD 0
  if s = e then toString s else toString s ++ "-" ++ toString e

/-- Effect of one present backing rule on the observed port set: only
TCP/UDP rules contribute. -/
def portsStep (acc : List String) (r : SecurityGroupRule) : List String :=
  let protocol := strToUpper (r.protocol.getD "")
  if strStartsWith protocol "ICMP" then acc
  else if protocol = "TCP" ∨ protocol = "UDP" then
    addUniq acc (portString r)
  else acc

/-- Effect of one present backing rule on the in-place mutated rule block:
protocol and description are always overwritten, the ICMP fields only for
ICMP-family rules. -/
def ruleUpd (rule : RuleState) (r : SecurityGroupRule) : RuleState :=
  let protocol := strToUpper (r.protocol.getD "")
  let rule' := { rule with
    protocol := protocol
    description := defaultString r.description "" }
  if strStartsWith protocol "ICMP" then
    { rule' with
      protocol := strReplaceV6 protocol
      icmpCode := r.icmpCode.getD 0
      icmpType := r.icmpType.getD 0 }
  else rule'

/-- Whether `walkStep` can process a present backing rule without a fault
or a failed group lookup: the conditions are independent of the
accumulator. -/
def stepOK (getSG : String → Option String) (r : SecurityGroupRule) : Bool :=
  r.protocol.isSome &&
  (match r.securityGroupID with
   | some gid => (getSG gid).isSome
   | none => true) &&
  (if strStartsWith (strToUpper (r.protocol.getD "")) "ICMP" then
    r.icmpCode.isSome && r.icmpType.isSome
   else true)

/-- The pure value of one walk iteration (equal to `walkStep` whenever the
latter succeeds). -/
def pureStep (getSG : String → Option String)
    (lookup : String → Option SecurityGroupRule)
    (acc : WalkAcc) (id : String) : WalkAcc :=
  match lookup id with
  | none => { acc with ids := acc.ids.erase id }
  | some r =>
      { rule := ruleUpd acc.rule r
        cidrList := cidrStep acc.cidrList r
        usgList := usgStep getSG acc.usgList r
        ports := portsStep acc.ports r
        ids := acc.ids
        actualLen := acc.actualLen + 1 }

/-- The pure value of the whole walk. -/
def pureFold (getSG : String → Option String)
    (lookup : String → Option SecurityGroupRule)
    (acc : WalkAcc) (l : List String) : WalkAcc :=
  l.foldl (pureStep getSG lookup) acc

/-- The id-set component of the walk: each id whose backing rule vanished
is removed. -/
def eraseAbsent (lookup : String → Option SecurityGroupRule)
    (ids : List String) (l : List String) : List String :=
  l.foldl (fun ids id => if (lookup id).isSome then ids else ids.erase id) ids

/-- Last-writer-wins fold: each element either overwrites the accumulator
or leaves it unchanged. -/
def lwFold {α : Type} (f : SecurityGroupRule → Option α) (x : α)
    (rs : List SecurityGroupRule) : α :=
  rs.foldl (fun a r => (f r).getD a) x

/-- The protocol string a present backing rule writes into the block. -/
def protoOf (r : SecurityGroupRule) : String :=
  let protocol := strToUpper (r.protocol.getD "")
  if strStartsWith protocol "ICMP" then strReplaceV6 protocol else protocol

/-- The ICMP fields a present backing rule writes, when it writes them. -/
def icmpOf (r : SecurityGroupRule) : Option (Int × Int) :=
  if strStartsWith (strToUpper (r.protocol.getD "")) "ICMP" then
    some (r.icmpCode.getD 0, r.icmpType.getD 0)
  else none

/-- Spec-side reading of §4.4: the substring before the first `_`. -/
def takeBeforeUnderscore (s : String) : String :=
  ⟨s.data.takeWhile (fun c => c ≠ '_')⟩

/-! Concrete scenarios used to instantiate the theorems. -/

/-- Backing rules of the drift-ambiguity scenario of §8.5: of the four
expected (peer × port) pairs over CIDRs `10.0.0.0/8`, `10.1.0.0/8` and
ports `80`, `443`, only three concrete rules survive. -/
def exDriftLookup : String → Option SecurityGroupRule := fun id =>
  if id = "i1" then
    some { id := some "r1", protocol := some "tcp",
           network := some "10.0.0.0/8",
           startPort := some 80, endPort := some 80 }
  else if id = "i2" then
    some { id := some "r2", protocol := some "tcp",
           network := some "10.0.0.0/8",
           startPort := some 443, endPort := some 443 }
  else if id = "i3" then
    some { id := some "r3", protocol := some "tcp",
           network := some "10.1.0.0/8",
           startPort := some 80, endPort := some 80 }
  else none

/-- The declared template of the drift-ambiguity scenario. -/
def exDriftRule : RuleState :=
  { cidrList := ["10.0.0.0/8", "10.1.0.0/8"], ports := ["80", "443"],
    protocol := "TCP", ids := ["i1", "i2", "i3"] }

/-- The accumulator the walk of the drift-ambiguity scenario computes. -/
def exDriftAcc : WalkAcc :=
  { rule := { cidrList := ["10.0.0.0/8", "10.1.0.0/8"], description := "",
              icmpCode := 0, icmpType := 0, ports := ["80", "443"],
              protocol := "TCP", userSecurityGroupList := [],
              ids := ["i1", "i2", "i3"] }
    cidrList := ["10.0.0.0/8", "10.1.0.0/8"]
    usgList := []
    ports := ["80", "443"]
    ids := ["i1", "i2", "i3"]
    actualLen := 3 }

/-- A second copy of the drift-ambiguity backing rules, used to exhibit
the non-idempotence of the reconciliation. -/
def exTwiceLookup : String → Option SecurityGroupRule := fun id =>
  if id = "i1" then
    some { id := some "r1", protocol := some "tcp",
           network := some "10.0.0.0/8",
           startPort := some 80, endPort := some 80 }
  else if id = "i2" then
    some { id := some "r2", protocol := some "tcp",
           network := some "10.0.0.0/8",
           startPort := some 443, endPort := some 443 }
  else if id = "i3" then
    some { id := some "r3", protocol := some "tcp",
           network := some "10.1.0.0/8",
           startPort := some 80, endPort := some 80 }
  else none

/-- The declared template of the non-idempotence counterexample. -/
def exTwiceRule : RuleState :=
  { cidrList := ["10.0.0.0/8", "10.1.0.0/8"], ports := ["80", "443"],
    protocol := "TCP", ids := ["i1", "i2", "i3"] }

/-- A drift-free scenario: one CIDR, one port, one surviving backing
rule. -/
def exStableLookup : String → Option SecurityGroupRule := fun id =>
  if id = "i1" then
    some { id := some "r1", protocol := some "tcp",
           network := some "10.0.0.0/8",
           startPort := some 80, endPort := some 80 }
  else none

/-- The declared template of the drift-free scenario. -/
def exStableRule : RuleState :=
  { cidrList := ["10.0.0.0/8"], ports := ["80"],
    protocol := "TCP", ids := ["i1"] }

/-- The walk accumulator of the drift-free scenario. -/
def exStableAcc : WalkAcc :=
  { rule := { cidrList := ["10.0.0.0/8"], description := "",
              icmpCode := 0, icmpType := 0, ports := ["80"],
              protocol := "TCP", userSecurityGroupList := [],
              ids := ["i1"] }
    cidrList := ["10.0.0.0/8"]
    usgList := []
    ports := ["80"]
    ids := ["i1"]
    actualLen := 1 }

/-- The reconciled template of the drift-free scenario. -/
def exStableOut : RuleState :=
  { cidrList := ["10.0.0.0/8"], description := "",
    icmpCode := 0, icmpType := 0, ports := ["80"],
    protocol := "TCP", userSecurityGroupList := [],
    ids := ["i1"] }

/-- A partially-deleted scenario: of two recorded ids one backing rule
survives and one vanished. -/
def exMixedLookup : String → Option SecurityGroupRule := fun id =>
  if id = "i1" then
    some { id := some "r1", protocol := some "tcp",
           network := some "10.0.0.0/8",
           startPort := some 80, endPort := some 80 }
  else none

/-- The declared template of the partially-deleted scenario. -/
def exMixedRule : RuleState :=
  { cidrList := ["10.0.0.0/8"], ports := ["80"],
    protocol := "TCP", ids := ["i1", "gone"] }

/-- The walk accumulator of the partially-deleted scenario. -/
def exMixedAcc : WalkAcc :=
  { rule := { cidrList := ["10.0.0.0/8"], description := "",
              icmpCode := 0, icmpType := 0, ports := ["80"],
              protocol := "TCP", userSecurityGroupList := [],
              ids := ["i1", "gone"] }
    cidrList := ["10.0.0.0/8"]
    usgList := []
    ports := ["80"]
    ids := ["i1"]
    actualLen := 1 }

/-! Lemmas: success of the walk is independent of the accumulator, and a
successful walk computes the pure fold. -/

theorem exBind_ok {α β : Type} (a : α) (f : α → Except String β) :
    (Except.ok a >>= f) = f a := rfl

theorem exBind_error {α β : Type} (e : String) (f : α → Except String β) :
    ((Except.error e : Except String α) >>= f) = Except.error e := rfl

theorem exPure_eq_ok {α : Type} (a : α) :
    (pure a : Except String α) = Except.ok a := rfl

/-- A walk step on an id whose backing rule satisfies `stepOK` (or whose
backing rule vanished) succeeds and computes `pureStep`, for any
accumulator. -/
theorem walkStep_ok_of_stepOK {getSG : String → Option String}
    {lookup : String → Option SecurityGroupRule} {acc : WalkAcc} {id : String}
    (h : ∀ r, lookup id = some r → stepOK getSG r = true) :
    walkStep getSG lookup acc id =
      Except.ok (pureStep getSG lookup acc id) := by
  cases hlk : lookup id with
  | none => simp [walkStep, pureStep, hlk]
  | some r =>
    have hok := h r hlk
    simp only [stepOK, Bool.and_eq_true] at hok
    obtain ⟨⟨hp, hsg⟩, hicmp⟩ := hok
    cases hproto : r.protocol with
    | none => simp [hproto] at hp
    | some p =>
      rw [hproto] at hicmp
      simp only [Option.getD_some] at hicmp
      simp only [walkStep, pureStep, hlk, deref, hproto, exBind_ok,
        Option.getD_some]
      cases hsgid : r.securityGroupID with
      | none =>
        simp only [hsgid, exBind_ok, exPure_eq_ok]
        by_cases hpre : strStartsWith (strToUpper p) "ICMP"
        · rw [if_pos hpre] at hicmp
          simp only [Bool.and_eq_true, Option.isSome_iff_exists] at hicmp
          obtain ⟨⟨c, hc⟩, ⟨t, ht⟩⟩ := hicmp
          simp [hpre, hc, ht, ruleUpd, cidrStep, usgStep, portsStep, hsgid,
            hproto, defaultString, exBind_ok, exPure_eq_ok]
        · by_cases htcp : (strToUpper p) = "TCP" ∨ (strToUpper p) = "UDP"
          · simp [hpre, htcp, ruleUpd, cidrStep, usgStep, portsStep, hsgid,
              hproto, defaultString, portString, exBind_ok, exPure_eq_ok]
          · simp [hpre, htcp, ruleUpd, cidrStep, usgStep, portsStep, hsgid,
              hproto, defaultString, portString, exBind_ok, exPure_eq_ok]
      | some gid =>
        rw [hsgid] at hsg
        cases hg : getSG gid with
        | none => simp [hg] at hsg
        | some name =>
          simp only [hsgid, hg, exBind_ok, exPure_eq_ok]
          by_cases hpre : strStartsWith (strToUpper p) "ICMP"
          · rw [if_pos hpre] at hicmp
            simp only [Bool.and_eq_true, Option.isSome_iff_exists] at hicmp
            obtain ⟨⟨c, hc⟩, ⟨t, ht⟩⟩ := hicmp
            simp [hpre, hc, ht, ruleUpd, cidrStep, usgStep, portsStep, hsgid,
              hg, hproto, defaultString, exBind_ok, exPure_eq_ok]
          · by_cases htcp : (strToUpper p) = "TCP" ∨ (strToUpper p) = "UDP"
            · simp [hpre, htcp, ruleUpd, cidrStep, usgStep, portsStep, hsgid,
                hg, hproto, defaultString, portString, exBind_ok, exPure_eq_ok]
            · simp [hpre, htcp, ruleUpd, cidrStep, usgStep, portsStep, hsgid,
                hg, hproto, defaultString, portString, exBind_ok, exPure_eq_ok]

/-- A successful walk step implies `stepOK` of the backing rule found. -/
theorem stepOK_of_walkStep_ok {getSG : String → Option String}
    {lookup : String → Option SecurityGroupRule} {acc : WalkAcc} {id : String}
    {out : WalkAcc} {r : SecurityGroupRule} (hlk : lookup id = some r)
    (h : walkStep getSG lookup acc id = Except.ok out) :
    stepOK getSG r = true := by
  cases hproto : r.protocol with
  | none => simp [walkStep, hlk, deref, hproto, exBind_error] at h
  | some p =>
    cases hsgid : r.securityGroupID with
    | none =>
      by_cases hpre : strStartsWith (strToUpper p) "ICMP"
      · cases hc : r.icmpCode with
        | none =>
          simp [walkStep, hlk, deref, hproto, hsgid, hpre, hc, exBind_ok,
            exBind_error] at h
        | some c =>
          cases ht : r.icmpType with
          | none =>
            simp [walkStep, hlk, deref, hproto, hsgid, hpre, hc, ht,
              exBind_ok, exBind_error] at h
          | some t => simp [stepOK, hproto, hsgid, hpre, hc, ht]
      · simp [stepOK, hproto, hsgid, hpre]
    | some gid =>
      cases hg : getSG gid with
      | none =>
        simp [walkStep, hlk, deref, hproto, hsgid, hg, exBind_ok,
          exBind_error] at h
      | some name =>
        by_cases hpre : strStartsWith (strToUpper p) "ICMP"
        · cases hc : r.icmpCode with
          | none =>
            simp [walkStep, hlk, deref, hproto, hsgid, hg, hpre, hc,
              exBind_ok, exBind_error] at h
          | some c =>
            cases ht : r.icmpType with
            | none =>
              simp [walkStep, hlk, deref, hproto, hsgid, hg, hpre, hc, ht,
                exBind_ok, exBind_error] at h
            | some t => simp [stepOK, hproto, hsgid, hg, hpre, hc, ht]
        · simp [stepOK, hproto, hsgid, hg, hpre]

/-- A successful walk over an id list implies `stepOK` of every present
backing rule. -/
theorem stepOK_of_fold_ok {getSG : String → Option String}
    {lookup : String → Option SecurityGroupRule} :
    ∀ (l : List String) (acc out : WalkAcc),
      l.foldlM (walkStep getSG lookup) acc = Except.ok out →
      ∀ r ∈ presentRules lookup l, stepOK getSG r = true := by
  intro l
  induction l with
  | nil => intro acc out h r hr; simp [presentRules] at hr
  | cons id t ih =>
    intro acc out h r hr
    rw [List.foldlM_cons] at h
    cases hstep : walkStep getSG lookup acc id with
    | error e => rw [hstep] at h; simp [exBind_error] at h
    | ok acc1 =>
      rw [hstep, exBind_ok] at h
      simp only [presentRules, List.filterMap_cons] at hr
      cases hlk : lookup id with
      | none => rw [hlk] at hr; exact ih acc1 out h r hr
      | some r0 =>
        rw [hlk] at hr
        rcases List.mem_cons.mp hr with he | hm
        · subst he; exact stepOK_of_walkStep_ok hlk hstep
        · exact ih acc1 out h r hm

/-- If every present backing rule satisfies `stepOK`, the walk succeeds
from any accumulator and computes the pure fold. -/
theorem fold_ok_of_stepOK {getSG : String → Option String}
    {lookup : String → Option SecurityGroupRule} :
    ∀ (l : List String) (acc : WalkAcc),
      (∀ r ∈ presentRules lookup l, stepOK getSG r = true) →
      l.foldlM (walkStep getSG lookup) acc =
        Except.ok (pureFold getSG lookup acc l) := by
  intro l
  induction l with
  | nil => intro acc _; simp [pureFold, List.foldlM_nil, exPure_eq_ok]
  | cons id t ih =>
    intro acc h
    rw [List.foldlM_cons]
    have hstep : walkStep getSG lookup acc id =
        Except.ok (pureStep getSG lookup acc id) := by
      apply walkStep_ok_of_stepOK
      intro r hr
      apply h
      simp [presentRules, List.filterMap_cons, hr]
    rw [hstep, exBind_ok]
    rw [pureFold, List.foldl_cons]
    apply ih
    intro r hr
    apply h
    simp only [presentRules, List.filterMap_cons]
    cases hlk : lookup id
    · exact hr
    · exact List.mem_cons_of_mem _ hr

/-- Closed form of the pure fold: each accumulator component is an
independent fold over the present backing rules, and the id set undergoes
the erasures of the vanished ids. -/
theorem pureFold_eq :
    ∀ (getSG : String → Option String)
      (lookup : String → Option SecurityGroupRule)
      (l : List String) (acc : WalkAcc),
      pureFold getSG lookup acc l =
        { rule := (presentRules lookup l).foldl ruleUpd acc.rule
          cidrList := (presentRules lookup l).foldl cidrStep acc.cidrList
          usgList := (presentRules lookup l).foldl (usgStep getSG) acc.usgList
          ports := (presentRules lookup l).foldl portsStep acc.ports
          ids := eraseAbsent lookup acc.ids l
          actualLen := acc.actualLen + (presentRules lookup l).length } := by
  intro getSG lookup l
  induction l with
  | nil => intro acc; simp [pureFold, presentRules, eraseAbsent]
  | cons id t ih =>
    intro acc
    rw [pureFold, List.foldl_cons, ← pureFold, ih]
    cases hlk : lookup id with
    | none =>
      simp [pureStep, hlk, presentRules, List.filterMap_cons, eraseAbsent]
    | some r =>
      simp [pureStep, hlk, presentRules, List.filterMap_cons, eraseAbsent,
        Nat.add_assoc, Nat.add_comm 1]

/-- Walking over ids whose backing rules are all present removes nothing. -/
theorem eraseAbsent_all_present {lookup : String → Option SecurityGroupRule} :
    ∀ (l ids : List String), (∀ id ∈ l, (lookup id).isSome = true) →
      eraseAbsent lookup ids l = ids := by
  intro l
  induction l with
  | nil => intro ids _; rfl
  | cons id t ih =>
    intro ids h
    rw [eraseAbsent, List.foldl_cons]
    rw [if_pos (h id (List.mem_cons_self id t))]
    exact ih ids (fun x hx => h x (List.mem_cons_of_mem _ hx))

/-- Erasing the vanished ids of `l` from a duplicate-free list keeps
exactly the present ones and the ones not walked. -/
theorem eraseAbsent_filter {lookup : String → Option SecurityGroupRule} :
    ∀ (l ids : List String), ids.Nodup →
      eraseAbsent lookup ids l =
        ids.filter (fun id => (lookup id).isSome || !(l.contains id)) := by
  intro l
  induction l with
  | nil =>
    intro ids _
    simp [eraseAbsent]
  | cons x t ih =>
    intro ids hnd
    rw [eraseAbsent, List.foldl_cons]
    by_cases hx : (lookup x).isSome = true
    · rw [if_pos hx, ← eraseAbsent, ih ids hnd]
      apply List.filter_congr
      intro y _
      by_cases hxy : y = x
      · subst hxy; simp [hx]
      · simp only [List.contains_cons, beq_false_of_ne hxy]
        cases (lookup y).isSome <;> cases t.contains y <;> rfl
    · rw [if_neg hx, ← eraseAbsent]
      rw [List.Nodup.erase_eq_filter hnd x]
      rw [ih _ (List.Nodup.filter _ hnd)]
      rw [List.filter_filter]
      apply List.filter_congr
      intro y _
      simp only [Bool.not_eq_true] at hx
      by_cases hxy : y = x
      · subst hxy
        simp [hx, List.contains_cons]
      · simp only [List.contains_cons, bne, beq_false_of_ne hxy]
        cases hl : (lookup y).isSome <;> cases t.contains y <;> rfl

/-- Walking a duplicate-free id set over itself keeps exactly the ids with
a present backing rule. -/
theorem eraseAbsent_self {lookup : String → Option SecurityGroupRule}
    (l : List String) (h : l.Nodup) :
    eraseAbsent lookup l l = l.filter (fun id => (lookup id).isSome) := by
  rw [eraseAbsent_filter l l h]
  apply List.filter_congr
  intro y hy
  have hc : l.contains y = true := by
    rw [List.contains_iff_exists_mem_beq]
    exact ⟨y, hy, by simp⟩
  simp only [hc, Bool.not_true, Bool.or_false]

/-- Restricting an id list to the ids with present backing rules does not
change the backing rules found. -/
theorem presentRules_filter {lookup : String → Option SecurityGroupRule} :
    ∀ l : List String,
      presentRules lookup (l.filter (fun id => (lookup id).isSome)) =
        presentRules lookup l := by
  intro l
  induction l with
  | nil => rfl
  | cons id t ih =>
    cases hlk : lookup id with
    | none =>
      simp only [presentRules, List.filter_cons] at *
      simp [hlk, ih]
    | some r =>
      simp only [presentRules, List.filter_cons] at *
      simp [hlk, ih]

theorem lwFold_cons {α : Type} (f : SecurityGroupRule → Option α) (x : α)
    (r : SecurityGroupRule) (t : List SecurityGroupRule) :
    lwFold f x (r :: t) = lwFold f ((f r).getD x) t := rfl

/-- A last-writer-wins fold re-run on its own result is unchanged. -/
theorem lwFold_idem {α : Type} (f : SecurityGroupRule → Option α) :
    ∀ (rs : List SecurityGroupRule) (x : α),
      lwFold f (lwFold f x rs) rs = lwFold f x rs := by
  intro rs
  induction rs with
  | nil => intro x; rfl
  | cons r t ih =>
    intro x
    cases hf : f r with
    | none =>
      simp only [lwFold, List.foldl_cons, hf, Option.getD_none]
      exact ih x
    | some v =>
      simp only [lwFold, List.foldl_cons, hf, Option.getD_some]

/-- The walked rule block's protocol is a last-writer-wins fold. -/
theorem foldl_ruleUpd_protocol :
    ∀ (rs : List SecurityGroupRule) (A : RuleState),
      (rs.foldl ruleUpd A).protocol =
        lwFold (fun r => some (protoOf r)) A.protocol rs := by
  intro rs
  induction rs with
  | nil => intro A; rfl
  | cons r t ih =>
    intro A
    rw [List.foldl_cons, ih, lwFold_cons, Option.getD_some]
    congr 1
    by_cases hpre : strStartsWith (strToUpper (r.protocol.getD "")) "ICMP" = true
    · simp [ruleUpd, protoOf, hpre]
    · simp [ruleUpd, protoOf, hpre]

/-- The walked rule block's description is a last-writer-wins fold. -/
theorem foldl_ruleUpd_description :
    ∀ (rs : List SecurityGroupRule) (A : RuleState),
      (rs.foldl ruleUpd A).description =
        lwFold (fun r => some (defaultString r.description "")) A.description
          rs := by
  intro rs
  induction rs with
  | nil => intro A; rfl
  | cons r t ih =>
    intro A
    rw [List.foldl_cons, ih, lwFold_cons, Option.getD_some]
    congr 1
    by_cases hpre : strStartsWith (strToUpper (r.protocol.getD "")) "ICMP" = true
    · simp [ruleUpd, hpre]
    · simp [ruleUpd, hpre]

/-- The walked rule block's ICMP code is a last-writer-wins fold. -/
theorem foldl_ruleUpd_icmpCode :
    ∀ (rs : List SecurityGroupRule) (A : RuleState),
      (rs.foldl ruleUpd A).icmpCode =
        lwFold (fun r => (icmpOf r).map Prod.fst) A.icmpCode rs := by
  intro rs
  induction rs with
  | nil => intro A; rfl
  | cons r t ih =>
    intro A
    rw [List.foldl_cons, ih, lwFold_cons]
    congr 1
    by_cases hpre : strStartsWith (strToUpper (r.protocol.getD "")) "ICMP" = true
    · simp [ruleUpd, icmpOf, hpre]
    · simp [ruleUpd, icmpOf, hpre]

/-- The walked rule block's ICMP type is a last-writer-wins fold. -/
theorem foldl_ruleUpd_icmpType :
    ∀ (rs : List SecurityGroupRule) (A : RuleState),
      (rs.foldl ruleUpd A).icmpType =
        lwFold (fun r => (icmpOf r).map Prod.snd) A.icmpType rs := by
  intro rs
  induction rs with
  | nil => intro A; rfl
  | cons r t ih =>
    intro A
    rw [List.foldl_cons, ih, lwFold_cons]
    congr 1
    by_cases hpre : strStartsWith (strToUpper (r.protocol.getD "")) "ICMP" = true
    · simp [ruleUpd, icmpOf, hpre]
    · simp [ruleUpd, icmpOf, hpre]

/-- One walk update never touches the block's set-typed attributes. -/
theorem ruleUpd_preserved (A : RuleState) (r : SecurityGroupRule) :
    (ruleUpd A r).cidrList = A.cidrList ∧
    (ruleUpd A r).ports = A.ports ∧
    (ruleUpd A r).userSecurityGroupList = A.userSecurityGroupList ∧
    (ruleUpd A r).ids = A.ids := by
  by_cases hpre : strStartsWith (strToUpper (r.protocol.getD "")) "ICMP" = true
  · simp [ruleUpd, hpre]
  · simp [ruleUpd, hpre]

/-- The walk never touches the block's set-typed attributes. -/
theorem foldl_ruleUpd_preserved :
    ∀ (rs : List SecurityGroupRule) (A : RuleState),
      (rs.foldl ruleUpd A).cidrList = A.cidrList ∧
      (rs.foldl ruleUpd A).ports = A.ports ∧
      (rs.foldl ruleUpd A).userSecurityGroupList = A.userSecurityGroupList ∧
      (rs.foldl ruleUpd A).ids = A.ids := by
  intro rs
  induction rs with
  | nil => intro A; exact ⟨rfl, rfl, rfl, rfl⟩
  | cons r t ih =>
    intro A
    rw [List.foldl_cons]
    obtain ⟨h1, h2, h3, h4⟩ := ih (ruleUpd A r)
    obtain ⟨g1, g2, g3, g4⟩ := ruleUpd_preserved A r
    exact ⟨h1.trans g1, h2.trans g2, h3.trans g3, h4.trans g4⟩

/-- Re-walking a rule block whose walked fields already carry the walk's
result changes nothing. -/
theorem foldl_ruleUpd_stable (rs : List SecurityGroupRule) (A B : RuleState)
    (hp : B.protocol = (rs.foldl ruleUpd A).protocol)
    (hd : B.description = (rs.foldl ruleUpd A).description)
    (hc : B.icmpCode = (rs.foldl ruleUpd A).icmpCode)
    (ht : B.icmpType = (rs.foldl ruleUpd A).icmpType) :
    rs.foldl ruleUpd B = B := by
  apply RuleState.ext
  · exact (foldl_ruleUpd_preserved rs B).1
  · rw [foldl_ruleUpd_description, hd, foldl_ruleUpd_description]
    exact lwFold_idem _ rs A.description
  · rw [foldl_ruleUpd_icmpCode, hc, foldl_ruleUpd_icmpCode]
    exact lwFold_idem _ rs A.icmpCode
  · rw [foldl_ruleUpd_icmpType, ht, foldl_ruleUpd_icmpType]
    exact lwFold_idem _ rs A.icmpType
  · exact (foldl_ruleUpd_preserved rs B).2.1
  · rw [foldl_ruleUpd_protocol, hp, foldl_ruleUpd_protocol]
    exact lwFold_idem _ rs A.protocol
  · exact (foldl_ruleUpd_preserved rs B).2.2.1
  · exact (foldl_ruleUpd_preserved rs B).2.2.2

/-- Unfolding of `reconcileRule` on a successful walk. -/
theorem reconcileRule_eq {getSG : String → Option String}
    {lookup : String → Option SecurityGroupRule} {rule : RuleState}
    {acc : WalkAcc} (hw : walkIds getSG lookup rule = Except.ok acc) :
    reconcileRule getSG lookup rule = Except.ok
      { acc.rule with
        ids := acc.ids
        ports := if acc.cidrList.length = rule.cidrList.length ∧
            acc.ports.length = rule.ports.length ∧
            acc.usgList.length = rule.userSecurityGroupList.length ∧
            (rule.cidrList.length + rule.userSecurityGroupList.length) *
              rule.ports.length ≠ acc.actualLen
          then [] else acc.ports
        cidrList := acc.cidrList
        userSecurityGroupList := acc.usgList } := by
  simp [reconcileRule, hw, exBind_ok]

/-! Claim theorems. -/

/-- C1: in a reconciliation pass over one rule template, if after the walk
the observed CIDR, port, and group-peer sets each have exactly the declared
cardinalities and yet the actual count differs from
`(cidrLen + userSecurityGroupLen) * portsLen`, the observed port set is
cleared; in every other case the accumulated observed port set is output
unchanged. -/
theorem claim_C1_drift_port_clearing (getSG : String → Option String)
    (lookup : String → Option SecurityGroupRule) (rule : RuleState)
    (acc : WalkAcc) (hw : walkIds getSG lookup rule = Except.ok acc) :
    (reconcileRule getSG lookup rule).map RuleState.ports = Except.ok
      (if acc.cidrList.length = rule.cidrList.length ∧
          acc.ports.length = rule.ports.length ∧
          acc.usgList.length = rule.userSecurityGroupList.length ∧
          (rule.cidrList.length + rule.userSecurityGroupList.length) *
            rule.ports.length ≠ acc.actualLen
        then [] else acc.ports) := by
  rw [reconcileRule_eq hw]
  rfl

/-- C1 witness: the concrete scenario of §8.5 — CIDRs
`{10.0.0.0/8, 10.1.0.0/8}`, ports `{80, 443}`, backed by exactly the three
rules `A:80`, `A:443`, `B:80` — reconciles to an empty observed port
set. -/
theorem claim_C1_drift_port_clearing_witness :
    (reconcileRule (fun _ => none) exDriftLookup exDriftRule).map
        RuleState.ports = Except.ok [] := by
  rw [claim_C1_drift_port_clearing (fun _ => none) exDriftLookup exDriftRule
    exDriftAcc (by rfl)]
  rfl

/-- C6: during reconciliation every id whose backing rule is absent is
dropped from the id set, and the observed CIDR, group-peer and port sets
are accumulated from the present backing rules alone, so absent ids
contribute nothing to them; consequently a template all of whose ids are
absent from the backing rules reconciles to empty ids and empty observed
CIDR, port, and group-peer sets. -/
theorem claim_C6_full_deletion (getSG : String → Option String)
    (lookup : String → Option SecurityGroupRule) (rule : RuleState)
    (acc : WalkAcc)
    (hnd : rule.ids.Nodup)
    (hw : walkIds getSG lookup rule = Except.ok acc) :
    (acc.ids = rule.ids.filter (fun id => (lookup id).isSome) ∧
     acc.cidrList = (presentRules lookup rule.ids).foldl cidrStep [] ∧
     acc.usgList =
       (presentRules lookup rule.ids).foldl (usgStep getSG) [] ∧
     acc.ports = (presentRules lookup rule.ids).foldl portsStep []) ∧
    ((∀ id ∈ rule.ids, lookup id = none) →
      reconcileRule getSG lookup rule = Except.ok
        { rule with
          cidrList := [], ports := [], userSecurityGroupList := [],
          ids := [] }) := by
  constructor
  · have hOK := stepOK_of_fold_ok rule.ids _ acc hw
    have hw2 : walkIds getSG lookup rule = Except.ok
        (pureFold getSG lookup ⟨rule, [], [], [], rule.ids, 0⟩
          rule.ids) := by
      rw [walkIds]
      exact fold_ok_of_stepOK rule.ids _ hOK
    have hacc : acc =
        pureFold getSG lookup ⟨rule, [], [], [], rule.ids, 0⟩ rule.ids := by
      rw [hw] at hw2
      exact Except.ok.inj hw2
    rw [pureFold_eq] at hacc
    simp only [eraseAbsent_self rule.ids hnd] at hacc
    rw [hacc]
    exact ⟨rfl, rfl, rfl, rfl⟩
  · intro habs
    have hpres : presentRules lookup rule.ids = [] :=
      List.filterMap_eq_nil_iff.mpr habs
    have hw0 : walkIds getSG lookup rule = Except.ok
        (pureFold getSG lookup ⟨rule, [], [], [], rule.ids, 0⟩
          rule.ids) := by
      rw [walkIds]
      exact fold_ok_of_stepOK rule.ids _ (by rw [hpres]; intro r hr; cases hr)
    rw [pureFold_eq, hpres] at hw0
    have hids : eraseAbsent lookup
        (⟨rule, [], [], [], rule.ids, 0⟩ : WalkAcc).ids rule.ids = [] := by
      show eraseAbsent lookup rule.ids rule.ids = []
      rw [eraseAbsent_self rule.ids hnd]
      rw [List.filter_eq_nil_iff]
      intro id hid
      rw [habs id hid]
      simp
    rw [hids] at hw0
    rw [reconcileRule_eq hw0]
    congr 1
    by_cases hcond : ([] : List String).length = rule.cidrList.length ∧
        ([] : List String).length = rule.ports.length ∧
        ([] : List String).length = rule.userSecurityGroupList.length ∧
        (rule.cidrList.length + rule.userSecurityGroupList.length) *
          rule.ports.length ≠
          (⟨rule, [], [], [], rule.ids, 0⟩ : WalkAcc).actualLen +
            ([] : List SecurityGroupRule).length
    · simp [hcond]
    · simp [hcond]

/-- C6 witness: in the partially-deleted scenario (ids `i1` present,
`gone` absent) the absent id is dropped while the present rule's CIDR and
port survive; and a template with two declared CIDR peers, two declared
ports and two recorded ids, none of which is backed any more, reconciles
to empty ids and empty observed sets. -/
theorem claim_C6_full_deletion_witness :
    exMixedAcc.ids = ["i1"] ∧
    exMixedAcc.ports = ["80"] ∧
    reconcileRule (fun _ => none) (fun _ => none)
        { cidrList := ["10.0.0.0/8", "10.1.0.0/8"], ports := ["80", "443"],
          protocol := "TCP", ids := ["a", "b"] } = Except.ok
      { cidrList := [], ports := [], protocol := "TCP",
        userSecurityGroupList := [], ids := [] } := by
  obtain ⟨⟨h1, _, _, h4⟩, _⟩ := claim_C6_full_deletion (fun _ => none)
    exMixedLookup exMixedRule exMixedAcc (by decide) (by rfl)
  refine ⟨h1.trans (by decide), h4.trans (by decide), ?_⟩
  exact (claim_C6_full_deletion (fun _ => none) (fun _ => none)
      { cidrList := ["10.0.0.0/8", "10.1.0.0/8"], ports := ["80", "443"],
        protocol := "TCP", ids := ["a", "b"] }
      ⟨{ cidrList := ["10.0.0.0/8", "10.1.0.0/8"], ports := ["80", "443"],
         protocol := "TCP", ids := ["a", "b"] }, [], [], [], [], 0⟩
      (by decide) (by rfl)).2 (fun id _ => rfl)

/-- C4 counterexample: reconciliation is not idempotent.  In the
drift-ambiguity scenario (CIDRs `{10.0.0.0/8, 10.1.0.0/8}`, ports
`{80, 443}`, three surviving backing rules) the first pass clears the
observed port set, and a second pass over the produced template with the
unchanged backing rules re-derives the ports from the backing rules, so
the second observed template differs from the first. -/
theorem claim_C4_idempotence_counterexample :
    (reconcileRule (fun _ => none) exTwiceLookup exTwiceRule).bind
        (reconcileRule (fun _ => none) exTwiceLookup) ≠
      reconcileRule (fun _ => none) exTwiceLookup exTwiceRule := by
  decide

/-- C4 (amended): reconciliation is idempotent for every template and
fixed backing-rule map whose first walk accumulates either an empty
observed port set or a surviving-id count equal to
(observed CIDRs + observed group peers) × (observed ports); when the
ambiguity policy clears a non-empty accumulated port set, a second pass
re-derives the ports from the backing rules and idempotence fails. -/
theorem claim_C4_reconcile_idempotent (getSG : String → Option String)
    (lookup : String → Option SecurityGroupRule) (rule : RuleState)
    (acc : WalkAcc) (r1 : RuleState)
    (hnd : rule.ids.Nodup)
    (hw : walkIds getSG lookup rule = Except.ok acc)
    (hD : acc.ports = [] ∨
      (acc.cidrList.length + acc.usgList.length) * acc.ports.length =
        acc.actualLen)
    (h1 : reconcileRule getSG lookup rule = Except.ok r1) :
    reconcileRule getSG lookup r1 = Except.ok r1 := by
  have hOK := stepOK_of_fold_ok rule.ids _ acc hw
  have hw2 : walkIds getSG lookup rule = Except.ok
      (pureFold getSG lookup ⟨rule, [], [], [], rule.ids, 0⟩ rule.ids) := by
    rw [walkIds]
    exact fold_ok_of_stepOK rule.ids _ hOK
  have hacc : acc =
      { rule := (presentRules lookup rule.ids).foldl ruleUpd rule
        cidrList := (presentRules lookup rule.ids).foldl cidrStep []
        usgList := (presentRules lookup rule.ids).foldl (usgStep getSG) []
        ports := (presentRules lookup rule.ids).foldl portsStep []
        ids := rule.ids.filter (fun id => (lookup id).isSome)
        actualLen := 0 + (presentRules lookup rule.ids).length } := by
    rw [hw] at hw2
    have h := Except.ok.inj hw2
    rw [pureFold_eq] at h
    simp only [eraseAbsent_self rule.ids hnd] at h
    exact h
  subst hacc
  simp only at hD
  -- pass 1 output
  have h1' := reconcileRule_eq hw
  rw [h1] at h1'
  have hr1 := Except.ok.inj h1'
  simp only at hr1
  -- facts about the produced template
  have hids : r1.ids = rule.ids.filter (fun id => (lookup id).isSome) := by
    rw [hr1]
  have hcid : r1.cidrList = (presentRules lookup rule.ids).foldl cidrStep []
      := by rw [hr1]
  have husg : r1.userSecurityGroupList =
      (presentRules lookup rule.ids).foldl (usgStep getSG) [] := by
    rw [hr1]
  have hport : r1.ports =
      (if ((presentRules lookup rule.ids).foldl cidrStep []).length =
            rule.cidrList.length ∧
          ((presentRules lookup rule.ids).foldl portsStep []).length =
            rule.ports.length ∧
          ((presentRules lookup rule.ids).foldl (usgStep getSG) []).length =
            rule.userSecurityGroupList.length ∧
          (rule.cidrList.length + rule.userSecurityGroupList.length) *
              rule.ports.length ≠
            0 + (presentRules lookup rule.ids).length
        then [] else (presentRules lookup rule.ids).foldl portsStep []) := by
    rw [hr1]
  -- re-walking the produced template is stable on the walked fields
  have hstab : (presentRules lookup rule.ids).foldl ruleUpd r1 = r1 := by
    refine foldl_ruleUpd_stable _ rule r1 ?_ ?_ ?_ ?_ <;> rw [hr1]
  -- the second walk finds the same backing rules
  have hOK2 : ∀ r ∈ presentRules lookup r1.ids, stepOK getSG r = true := by
    rw [hids, presentRules_filter]
    exact hOK
  have hmem : ∀ id ∈ r1.ids, (lookup id).isSome = true := by
    rw [hids]
    exact fun id hid => (List.mem_filter.mp hid).2
  have hw3 : walkIds getSG lookup r1 = Except.ok
      (pureFold getSG lookup ⟨r1, [], [], [], r1.ids, 0⟩ r1.ids) := by
    rw [walkIds]
    exact fold_ok_of_stepOK r1.ids _ hOK2
  have hacc2 : pureFold getSG lookup ⟨r1, [], [], [], r1.ids, 0⟩ r1.ids =
      { rule := r1
        cidrList := (presentRules lookup rule.ids).foldl cidrStep []
        usgList := (presentRules lookup rule.ids).foldl (usgStep getSG) []
        ports := (presentRules lookup rule.ids).foldl portsStep []
        ids := r1.ids
        actualLen := 0 + (presentRules lookup rule.ids).length } := by
    rw [pureFold_eq]
    simp only [eraseAbsent_all_present r1.ids r1.ids hmem]
    rw [hids, presentRules_filter]
    simp only [hids.symm, hstab]
  rw [hacc2] at hw3
  rw [reconcileRule_eq hw3]
  simp only
  congr 1
  -- field-wise comparison with the pass-1 output
  have hpi :
      (if ((presentRules lookup rule.ids).foldl cidrStep []).length =
            r1.cidrList.length ∧
          ((presentRules lookup rule.ids).foldl portsStep []).length =
            r1.ports.length ∧
          ((presentRules lookup rule.ids).foldl (usgStep getSG) []).length =
            r1.userSecurityGroupList.length ∧
          (r1.cidrList.length + r1.userSecurityGroupList.length) *
              r1.ports.length ≠
            0 + (presentRules lookup rule.ids).length
        then [] else (presentRules lookup rule.ids).foldl portsStep []) =
        r1.ports := by
    rcases hD with hP0 | hprod
    · rw [hport, hP0]
      simp
    · have hP1 : r1.ports = (presentRules lookup rule.ids).foldl portsStep []
          := by
        rw [hport, if_neg]
        rintro ⟨hc, hp, hu, hne⟩
        exact hne (by rw [hc, hp, hu] at hprod; exact hprod)
      rw [if_neg, hP1]
      rintro ⟨hc, hp, hu, hne⟩
      rw [hcid, husg, hP1] at hne
      exact hne hprod
  apply RuleState.ext
  · exact hcid.symm
  · rfl
  · rfl
  · rfl
  · exact hpi
  · rfl
  · exact husg.symm
  · rfl

/-- C4 witness: in the drift-free scenario (one CIDR, one port, the single
backing rule present) the first pass reproduces the template and the
second pass leaves it unchanged. -/
theorem claim_C4_reconcile_idempotent_witness :
    reconcileRule (fun _ => none) exStableLookup exStableOut =
      Except.ok exStableOut :=
  claim_C4_reconcile_idempotent (fun _ => none) exStableLookup
    exStableRule exStableAcc exStableOut (by decide) (by rfl)
    (Or.inr (by decide)) (by rfl)

/-- C2: the composite identifier has exactly the prescribed format — for
ICMP-family protocols (case-insensitive `icmp` prefix)
`{id}_{protocol-lowercased}_{icmpType}:{icmpCode}`; for TCP/UDP
`{id}_{protocol}_{peer-name}_{startPort}-{endPort}` where the peer name is
the CIDR string if a network is present, else the resolved (lower-case)
name of the referenced peer group; for any other protocol
`{id}_{protocol}_{peer-name}`. -/
theorem claim_C2_identifier_format (getSG : String → Option String)
    (rid proto cidr gid name : String) (t c : Int) (s e : Nat)
    (d fd : Option String) :
    (strStartsWith (strToLower proto) "icmp" = true →
      ruleToID getSG
        { id := some rid, description := d, protocol := some proto,
          icmpType := some t, icmpCode := some c, flowDirection := fd } =
        Except.ok (rid ++ "_" ++ strToLower proto ++ "_" ++ toString t ++
          ":" ++ toString c)) ∧
    ((strToLower proto = "tcp" ∨ strToLower proto = "udp") →
      strStartsWith (strToLower proto) "icmp" = false →
      ruleToID getSG
        { id := some rid, description := d, protocol := some proto,
          network := some cidr, startPort := some s, endPort := some e,
          flowDirection := fd } =
        Except.ok (rid ++ "_" ++ proto ++ "_" ++ cidr ++ "_" ++
          toString s ++ "-" ++ toString e)) ∧
    ((strToLower proto = "tcp" ∨ strToLower proto = "udp") →
      strStartsWith (strToLower proto) "icmp" = false →
      getSG gid = some name → strToLower name = name →
      ruleToID getSG
        { id := some rid, description := d, protocol := some proto,
          securityGroupID := some gid, startPort := some s,
          endPort := some e, flowDirection := fd } =
        Except.ok (rid ++ "_" ++ proto ++ "_" ++ name ++ "_" ++
          toString s ++ "-" ++ toString e)) ∧
    (strStartsWith (strToLower proto) "icmp" = false →
      ¬(strToLower proto = "tcp" ∨ strToLower proto = "udp") →
      getSG gid = some name → strToLower name = name →
      ruleToID getSG
        { id := some rid, description := d, protocol := some proto,
          securityGroupID := some gid, flowDirection := fd } =
        Except.ok (rid ++ "_" ++ proto ++ "_" ++ name)) ∧
    (strStartsWith (strToLower proto) "icmp" = false →
      ¬(strToLower proto = "tcp" ∨ strToLower proto = "udp") →
      ruleToID getSG
        { id := some rid, description := d, protocol := some proto,
          network := some cidr, flowDirection := fd } =
        Except.ok (rid ++ "_" ++ proto ++ "_" ++ cidr)) := by
  refine ⟨?_, ?_, ?_, ?_, ?_⟩
  · intro hpre
    simp [ruleToID, deref, hpre, exBind_ok]
  · intro htcp hpre
    simp [ruleToID, deref, hpre, htcp, exBind_ok]
  · intro htcp hpre hg _
    simp [ruleToID, deref, hpre, htcp, hg, exBind_ok]
  · intro hpre htcp hg _
    simp [ruleToID, deref, hpre, htcp, hg, exBind_ok, exPure_eq_ok]
  · intro hpre htcp
    simp [ruleToID, deref, hpre, htcp, exBind_ok, exPure_eq_ok]

/-- C2 witness: the four key shapes on concrete rules, among them the
§8.7 example `identify(id "abc", protocol "ICMPv6", type 3, code 0) =
"abc_icmpv6_3:0"`. -/
theorem claim_C2_identifier_format_witness :
    ruleToID (fun _ => none)
        { id := some "abc", protocol := some "ICMPv6", icmpType := some 3,
          icmpCode := some 0 } =
      Except.ok "abc_icmpv6_3:0" ∧
    ruleToID (fun _ => none)
        { id := some "abc", protocol := some "tcp",
          network := some "10.0.0.0/8", startPort := some 80,
          endPort := some 80 } =
      Except.ok "abc_tcp_10.0.0.0/8_80-80" ∧
    ruleToID (fun g => if g = "gid" then some "grp" else none)
        { id := some "abc", protocol := some "udp",
          securityGroupID := some "gid", startPort := some 53,
          endPort := some 53 } =
      Except.ok "abc_udp_grp_53-53" ∧
    ruleToID (fun g => if g = "gid" then some "grp" else none)
        { id := some "abc", protocol := some "gre",
          securityGroupID := some "gid" } =
      Except.ok "abc_gre_grp" ∧
    ruleToID (fun _ => none)
        { id := some "abc", protocol := some "gre",
          network := some "10.0.0.0/8" } =
      Except.ok "abc_gre_10.0.0.0/8" := by
  refine ⟨?_, ?_, ?_, ?_, ?_⟩
  · exact ((claim_C2_identifier_format (fun _ => none) "abc" "ICMPv6" ""
      "" "" 3 0 0 0 none none).1 (by decide)).trans (by decide)
  · exact ((claim_C2_identifier_format (fun _ => none) "abc" "tcp"
      "10.0.0.0/8" "" "" 0 0 80 80 none none).2.1 (by decide)
      (by decide)).trans (by decide)
  · exact ((claim_C2_identifier_format
      (fun g => if g = "gid" then some "grp" else none) "abc" "udp" ""
      "gid" "grp" 0 0 53 53 none none).2.2.1 (by decide) (by decide)
      (by decide) (by decide)).trans (by decide)
  · exact ((claim_C2_identifier_format
      (fun g => if g = "gid" then some "grp" else none) "abc" "gre" ""
      "gid" "grp" 0 0 0 0 none none).2.2.2.1 (by decide) (by decide)
      (by decide) (by decide)).trans (by decide)
  · exact ((claim_C2_identifier_format (fun _ => none) "abc" "gre"
      "10.0.0.0/8" "" "" 0 0 0 0 none none).2.2.2.2 (by decide)
      (by decide)).trans (by decide)

/-- C8: identification is deterministic — the key is a function of the
rule's own fields and of the resolver's answer for the rule's group
reference alone, so two runs whose resolver answers agree there produce
byte-identical keys. -/
theorem claim_C8_identifier_deterministic
    (getSG1 getSG2 : String → Option String) (r : SecurityGroupRule)
    (h : ∀ gid, r.securityGroupID = some gid → getSG1 gid = getSG2 gid) :
    ruleToID getSG1 r = ruleToID getSG2 r := by
  unfold ruleToID
  cases hproto : r.protocol with
  | none => rfl
  | some p =>
    simp only [deref, exBind_ok]
    by_cases hpre : strStartsWith (strToLower p) "icmp" = true
    · simp [hpre]
    · simp only [hpre, Bool.false_eq_true, if_false]
      cases hnet : r.network with
      | some n => rfl
      | none =>
        cases hsgid : r.securityGroupID with
        | none => rfl
        | some gid =>
          dsimp only
          rw [exBind_ok, exBind_ok, h gid hsgid]

/-- C8 witness: two resolvers that agree on the referenced group (but
differ elsewhere) yield the same key for a fixed TCP group-peer rule. -/
theorem claim_C8_identifier_deterministic_witness :
    ruleToID (fun g => if g = "gid" then some "grp" else none)
        { id := some "abc", protocol := some "tcp",
          securityGroupID := some "gid", startPort := some 80,
          endPort := some 80 } =
      ruleToID (fun g => if g = "gid" then some "grp" else some "other")
        { id := some "abc", protocol := some "tcp",
          securityGroupID := some "gid", startPort := some 80,
          endPort := some 80 } :=
  claim_C8_identifier_deterministic _ _ _
    (fun gid hg => by rw [← Option.some.inj hg]; rfl)

/-- `splitN2` keeps exactly the characters before the first `_` in its
head. -/
theorem splitN2_head (s : String) :
    (splitN2 s).headD "" = takeBeforeUnderscore s := by
  rw [splitN2]
  by_cases h : '_' ∈ s.data
  · rw [if_pos h]; rfl
  · rw [if_neg h]
    show s = takeBeforeUnderscore s
    rw [takeBeforeUnderscore]
    have hself : s.data.takeWhile (fun c => decide (c ≠ '_')) = s.data :=
      List.takeWhile_eq_self_iff.mpr (fun c hc => by
        simp only [decide_eq_true_eq]
        exact fun he => h (he ▸ hc))
    rw [hself]

/-- The removal set in closed form: one entry per identifier, keyed by
the identifier, carrying the prefix before the first `_` as backing ID. -/
theorem securityGroupRulesToRemove_eq (rule : RuleState) :
    securityGroupRulesToRemove rule =
      rule.ids.map (fun identifier =>
        (identifier,
          { id := some (takeBeforeUnderscore identifier) })) := by
  simp only [securityGroupRulesToRemove, splitN2_head]

/-- C7: the removal set has one minimal entry per recorded composite
identifier, keyed by the identifier itself and carrying as backing ID
exactly the substring before the identifier's first `_`; the function is
pure (it takes no resolver and performs no external calls). -/
theorem claim_C7_removal_extraction (rule : RuleState) :
    securityGroupRulesToRemove rule =
      rule.ids.map (fun identifier =>
        (identifier,
          { id := some (takeBeforeUnderscore identifier) })) :=
  securityGroupRulesToRemove_eq rule

/-- C7 witness: on `ids = {"abc_tcp_10.0.0.0/8_80-80"}` the single
removal request is keyed by the full identifier and carries backing ID
`"abc"` only. -/
theorem claim_C7_removal_extraction_witness :
    securityGroupRulesToRemove { ids := ["abc_tcp_10.0.0.0/8_80-80"] } =
      [("abc_tcp_10.0.0.0/8_80-80", { id := some "abc" })] :=
  (claim_C7_removal_extraction { ids := ["abc_tcp_10.0.0.0/8_80-80"] }).trans
    (by decide)

/-- C10: removal-set computation is total over arbitrary identifier
strings — it returns (without error or fault) one entry per identifier,
keyed by the full identifier, and an identifier containing no `_` is used
whole as the backing ID. -/
theorem claim_C10_removal_total (rule : RuleState) :
    (securityGroupRulesToRemove rule).map Prod.fst = rule.ids ∧
    (securityGroupRulesToRemove rule).length = rule.ids.length ∧
    (∀ e ∈ securityGroupRulesToRemove rule, '_' ∉ e.1.data →
      e.2 = { id := some e.1 }) := by
  refine ⟨?_, ?_, ?_⟩
  · rw [securityGroupRulesToRemove_eq, List.map_map]
    simp [Function.comp_def]
  · simp [securityGroupRulesToRemove]
  · intro e he hnu
    simp only [securityGroupRulesToRemove, List.mem_map] at he
    obtain ⟨a, _, hae⟩ := he
    subst hae
    simp only at hnu ⊢
    rw [splitN2, if_neg hnu]
    rfl

/-- C10 witness: a malformed identifier with no `_` separator yields one
entry keyed by the identifier whose backing ID is the whole string. -/
theorem claim_C10_removal_total_witness :
    (securityGroupRulesToRemove { ids := ["noseparator"] }).map Prod.fst =
      ["noseparator"] ∧
    (("noseparator", ({ id := some "noseparator" } : SecurityGroupRule)) :
        String × SecurityGroupRule).2 =
      { id := some "noseparator" } :=
  ⟨(claim_C10_removal_total { ids := ["noseparator"] }).1,
   (claim_C10_removal_total { ids := ["noseparator"] }).2.2
     ("noseparator", { id := some "noseparator" }) (by decide) (by decide)⟩

/-- C5 (code bug): in the create pass the `ruleToID` error is computed
into a diagnostic that is immediately discarded (line 425 lacks a
`return`), so a failed group lookup during identification does not abort
the create pass, and the Go zero-value identifier `""` is recorded in the
block's `ids` set: at a backing rule whose group resolution fails,
`ruleToID` errors, yet the embedded create loop returns success with
`ids = [""]`. -/
theorem claim_C5_create_swallows_lookup_error :
    ruleToID (fun _ => none)
        { id := some "uuid", protocol := some "tcp",
          securityGroupID := some "gid", startPort := some 80,
          endPort := some 80, flowDirection := some "ingress" } =
      Except.error "unable to retrieve Security Group" ∧
    createRuleIDs (fun _ => none)
        (fun r => Except.ok { r with id := some "uuid" }) "ingress"
        [{ protocol := some "tcp", securityGroupID := some "gid",
           startPort := some 80, endPort := some 80 }] [] =
      Except.ok [""] :=
  ⟨by decide, by decide⟩

/-- The CIDR expansion loop appends one concrete rule per declared CIDR
when every CIDR parses. -/
theorem cidrFold_length (parseCIDR : String → Option String) :
    ∀ (cs : List String) (r : SecurityGroupRule)
      (out : List SecurityGroupRule),
      (∀ ci ∈ cs, (parseCIDR ci).isSome = true) →
      ∃ out', cs.foldlM (fun out c =>
          match parseCIDR c with
          | some network =>
              Except.ok (out ++ [{ r with network := some network }])
          | none => Except.error "invalid CIDR address") out =
            Except.ok out' ∧
        out'.length = out.length + cs.length := by
  intro cs
  induction cs with
  | nil =>
    intro r out _
    exact ⟨out, by rw [List.foldlM_nil]; rfl, by simp⟩
  | cons c t ih =>
    intro r out h
    have hc := h c (List.mem_cons_self c t)
    cases hpc : parseCIDR c with
    | none => rw [hpc] at hc; cases hc
    | some network =>
      obtain ⟨out', hout, hlen⟩ :=
        ih r (out ++ [{ r with network := some network }])
          (fun ci hci => h ci (List.mem_cons_of_mem _ hci))
      refine ⟨out', ?_, ?_⟩
      · rw [List.foldlM_cons, hpc, exBind_ok, hout]
      · rw [hlen]; simp; omega
  
/-- Expanding every base rule over the declared CIDRs appends
`|bases| × |CIDRs|` concrete rules when every CIDR parses. -/
theorem cidrExpand_length (parseCIDR : String → Option String)
    (cs : List String) (hcs : ∀ ci ∈ cs, (parseCIDR ci).isSome = true) :
    ∀ (bs : List SecurityGroupRule) (out : List SecurityGroupRule),
      ∃ out', bs.foldlM (fun out r =>
          cs.foldlM (fun out c =>
            match parseCIDR c with
            | some network =>
                Except.ok (out ++ [{ r with network := some network }])
            | none => Except.error "invalid CIDR address") out) out =
          Except.ok out' ∧
        out'.length = out.length + bs.length * cs.length := by
  intro bs
  induction bs with
  | nil =>
    intro out
    exact ⟨out, by rw [List.foldlM_nil]; rfl, by simp⟩
  | cons r bt ih =>
    intro out
    obtain ⟨mid, hmid, hmidlen⟩ := cidrFold_length parseCIDR cs r out hcs
    obtain ⟨out', hout, hlen⟩ := ih mid
    refine ⟨out', ?_, ?_⟩
    · rw [List.foldlM_cons, hmid, exBind_ok, hout]
    · rw [hlen, hmidlen]; simp [List.length_cons]; ring

/-- The group-peer expansion loop appends one concrete rule per declared
group when every lookup succeeds. -/
theorem usgFold_length (findSG : String → Option String) :
    ∀ (gs : List String) (r : SecurityGroupRule)
      (out : List SecurityGroupRule),
      (∀ x ∈ gs, (findSG x).isSome = true) →
      ∃ out', gs.foldlM (fun out x =>
          match findSG x with
          | some sgID =>
              Except.ok (out ++ [{ r with securityGroupID := some sgID }])
          | none =>
              Except.error ("unable to retrieve Security Group " ++ x)) out =
            Except.ok out' ∧
        out'.length = out.length + gs.length := by
  intro gs
  induction gs with
  | nil =>
    intro r out _
    exact ⟨out, by rw [List.foldlM_nil]; rfl, by simp⟩
  | cons x t ih =>
    intro r out h
    have hx := h x (List.mem_cons_self x t)
    cases hfx : findSG x with
    | none => rw [hfx] at hx; cases hx
    | some sgID =>
      obtain ⟨out', hout, hlen⟩ :=
        ih r (out ++ [{ r with securityGroupID := some sgID }])
          (fun y hy => h y (List.mem_cons_of_mem _ hy))
      refine ⟨out', ?_, ?_⟩
      · rw [List.foldlM_cons, hfx, exBind_ok, hout]
      · rw [hlen]; simp; omega

/-- Expanding every base rule over the declared group peers appends
`|bases| × |groups|` concrete rules when every lookup succeeds. -/
theorem usgExpand_length (findSG : String → Option String)
    (gs : List String) (hgs : ∀ x ∈ gs, (findSG x).isSome = true) :
    ∀ (bs : List SecurityGroupRule) (out : List SecurityGroupRule),
      ∃ out', bs.foldlM (fun out r =>
          gs.foldlM (fun out x =>
            match findSG x with
            | some sgID =>
                Except.ok (out ++ [{ r with securityGroupID := some sgID }])
            | none =>
              Except.error ("unable to retrieve Security Group " ++ x)) out)
          out =
          Except.ok out' ∧
        out'.length = out.length + bs.length * gs.length := by
  intro bs
  induction bs with
  | nil =>
    intro out
    exact ⟨out, by rw [List.foldlM_nil]; rfl, by simp⟩
  | cons r bt ih =>
    intro out
    obtain ⟨mid, hmid, hmidlen⟩ := usgFold_length findSG gs r out hgs
    obtain ⟨out', hout, hlen⟩ := ih mid
    refine ⟨out', ?_, ?_⟩
    · rw [List.foldlM_cons, hmid, exBind_ok, hout]
    · rw [hlen, hmidlen]; simp [List.length_cons]; ring

/-- The number of base rules: one per port range for TCP/UDP, one
otherwise. -/
theorem baseRulesOf_length (rule : RuleState) :
    (baseRulesOf rule).length =
      (if strToLower rule.protocol = "tcp" ∨ strToLower rule.protocol = "udp"
       then rule.ports.length else 1) := by
  rw [baseRulesOf]
  by_cases hicmp : strStartsWith (strToLower rule.protocol) "icmp" = true
  · rw [if_pos hicmp, if_neg]
    · rfl
    · rintro (h | h) <;> rw [h] at hicmp <;> simp [strStartsWith] at hicmp
  · rw [if_neg hicmp]
    by_cases htcp : strToLower rule.protocol = "tcp" ∨
        strToLower rule.protocol = "udp"
    · rw [if_pos htcp, if_pos htcp]
      simp [preparePorts]
    · rw [if_neg htcp, if_neg htcp]
      rfl

/-- C3 counterexample: the blanket formula `(c+g) × max(1, p)` fails on
TCP with an empty declared port list — for one CIDR, no groups and no
ports the expansion yields no concrete rules at all, not
`(1+0) × max(1,0) = 1`. -/
theorem claim_C3_cardinality_counterexample :
    (securityGroupRulesToAdd (fun _ => some "gid") (fun c => some c)
        { cidrList := ["10.0.0.0/8"], protocol := "TCP" }).map
        List.length = Except.ok 0 ∧
    (1 + 0) * max 1 0 ≠ 0 :=
  ⟨by decide, by decide⟩

/-- C3 (amended): for a template with `c` declared CIDR peers, `g`
declared group peers and `p` declared port ranges, all of whose CIDRs
parse and whose group lookups succeed, expansion produces exactly
`(c+g) × p` concrete rules for TCP/UDP (0 when `p = 0`) and `(c+g) × 1`
for ICMP-family and other protocols. -/
theorem claim_C3_expansion_cardinality
    (findSG parseCIDR : String → Option String) (rule : RuleState)
    (hcs : ∀ ci ∈ rule.cidrList, (parseCIDR ci).isSome = true)
    (hgs : ∀ x ∈ rule.userSecurityGroupList, (findSG x).isSome = true) :
    ∃ rules,
      securityGroupRulesToAdd findSG parseCIDR rule = Except.ok rules ∧
      rules.length =
        (rule.cidrList.length + rule.userSecurityGroupList.length) *
          (if strToLower rule.protocol = "tcp" ∨
              strToLower rule.protocol = "udp"
           then rule.ports.length else 1) := by
  obtain ⟨mid, hmid, hmidlen⟩ :=
    cidrExpand_length parseCIDR rule.cidrList hcs (baseRulesOf rule) []
  obtain ⟨fin, hfin, hfinlen⟩ :=
    usgExpand_length findSG rule.userSecurityGroupList hgs
      (baseRulesOf rule) mid
  refine ⟨fin, ?_, ?_⟩
  · show ((baseRulesOf rule).foldlM (fun out r =>
        rule.cidrList.foldlM (fun out c =>
          match parseCIDR c with
          | some network =>
              Except.ok (out ++ [{ r with network := some network }])
          | none => Except.error "invalid CIDR address") out)
        ([] : List SecurityGroupRule)) >>= (fun cidrExpanded =>
          ((baseRulesOf rule).foldlM (fun out r =>
            rule.userSecurityGroupList.foldlM (fun out x =>
              match findSG x with
              | some sgID =>
                  Except.ok (out ++
                    [{ r with securityGroupID := some sgID }])
              | none =>
                  Except.error
                    ("unable to retrieve Security Group " ++ x)) out)
            cidrExpanded) >>= fun expandedRules => pure expandedRules) =
      Except.ok fin
    rw [hmid, exBind_ok, hfin, exBind_ok]
    rfl
  · rw [hfinlen, hmidlen, baseRulesOf_length]
    simp only [List.length_nil]
    ring

/-- C3 witness: a TCP template with two CIDR peers, one group peer and two
port ranges expands to exactly `(2+1) × 2 = 6` concrete rules. -/
theorem claim_C3_expansion_cardinality_witness :
    ∃ rules,
      securityGroupRulesToAdd (fun _ => some "gid") (fun c => some c)
          { cidrList := ["10.0.0.0/8", "10.1.0.0/8"], protocol := "TCP",
            ports := ["80", "443"], userSecurityGroupList := ["grp"] } =
        Except.ok rules ∧
      rules.length = 6 := by
  obtain ⟨rules, heq, hlen⟩ :=
    claim_C3_expansion_cardinality (fun _ => some "gid") (fun c => some c)
      { cidrList := ["10.0.0.0/8", "10.1.0.0/8"], protocol := "TCP",
        ports := ["80", "443"], userSecurityGroupList := ["grp"] }
      (by decide) (by decide)
  exact ⟨rules, heq, by rw [hlen]; decide⟩

theorem underscore_data : ("_" : String).data = ['_'] := rfl

/-- Every key `ruleToID` produces starts with the rule's backing ID
followed by `_`. -/
theorem ruleToID_ok_shape (getSG : String → Option String)
    (r : SecurityGroupRule) (k a : String) (hid : r.id = some a)
    (hk : ruleToID getSG r = Except.ok k) :
    ∃ rest, k.data = a.data ++ '_' :: rest := by
  unfold ruleToID at hk
  cases hproto : r.protocol with
  | none =>
    rw [hproto] at hk
    exact Except.noConfusion hk
  | some p =>
    rw [hproto] at hk
    simp only [deref, exBind_ok] at hk
    by_cases hpre : strStartsWith (strToLower p) "icmp" = true
    · rw [if_pos hpre, hid, exBind_ok] at hk
      cases ht : r.icmpType with
      | none => rw [ht] at hk; exact Except.noConfusion hk
      | some t =>
        rw [ht, exBind_ok] at hk
        cases hc : r.icmpCode with
        | none => rw [hc] at hk; exact Except.noConfusion hk
        | some c =>
          rw [hc, exBind_ok] at hk
          have hkk := Except.ok.inj hk
          subst hkk
          refine ⟨(strToLower p ++ "_" ++ toString t ++ ":" ++
            toString c).data, ?_⟩
          simp [String.data_append, underscore_data]
    · rw [if_neg hpre] at hk
      cases hnet : r.network with
      | some n =>
        rw [hnet, exBind_ok, hid, exBind_ok] at hk
        by_cases htcp : strToLower p = "tcp" ∨ strToLower p = "udp"
        · rw [if_pos htcp] at hk
          cases hsp : r.startPort with
          | none => rw [hsp] at hk; exact Except.noConfusion hk
          | some sp =>
            rw [hsp, exBind_ok] at hk
            cases hep : r.endPort with
            | none => rw [hep] at hk; exact Except.noConfusion hk
            | some ep =>
              rw [hep, exBind_ok] at hk
              have hkk := Except.ok.inj hk
              subst hkk
              refine ⟨(p ++ "_" ++ n ++ "_" ++ toString sp ++ "-" ++
                toString ep).data, ?_⟩
              simp [String.data_append, underscore_data]
        · rw [if_neg htcp] at hk
          have hkk := Except.ok.inj hk
          subst hkk
          refine ⟨(p ++ "_" ++ n).data, ?_⟩
          simp [String.data_append, underscore_data]
      | none =>
        rw [hnet] at hk
        cases hsgid : r.securityGroupID with
        | none => rw [hsgid] at hk; exact Except.noConfusion hk
        | some gid =>
          rw [hsgid, exBind_ok] at hk
          cases hg : getSG gid with
          | none => rw [hg] at hk; exact Except.noConfusion hk
          | some nm =>
            rw [hg, exBind_ok, hid, exBind_ok] at hk
            by_cases htcp : strToLower p = "tcp" ∨ strToLower p = "udp"
            · rw [if_pos htcp] at hk
              cases hsp : r.startPort with
              | none => rw [hsp] at hk; exact Except.noConfusion hk
              | some sp =>
                rw [hsp, exBind_ok] at hk
                cases hep : r.endPort with
                | none => rw [hep] at hk; exact Except.noConfusion hk
                | some ep =>
                  rw [hep, exBind_ok] at hk
                  have hkk := Except.ok.inj hk
                  subst hkk
                  refine ⟨(p ++ "_" ++ nm ++ "_" ++ toString sp ++ "-" ++
                    toString ep).data, ?_⟩
                  simp [String.data_append, underscore_data]
            · rw [if_neg htcp] at hk
              have hkk := Except.ok.inj hk
              subst hkk
              refine ⟨(p ++ "_" ++ nm).data, ?_⟩
              simp [String.data_append, underscore_data]

/-- Lists that agree after their first `_` separator agree before it. -/
theorem append_cons_underscore_inj :
    ∀ (l1 l2 t1 t2 : List Char), '_' ∉ l1 → '_' ∉ l2 →
      l1 ++ '_' :: t1 = l2 ++ '_' :: t2 → l1 = l2 := by
  intro l1
  induction l1 with
  | nil =>
    intro l2 t1 t2 _ h2 h
    cases l2 with
    | nil => rfl
    | cons b l2' =>
      rw [List.nil_append, List.cons_append] at h
      injection h with hb _
      subst hb
      exact absurd (List.mem_cons_self _ _) h2
  | cons a l1' ih =>
    intro l2 t1 t2 h1 h2 h
    cases l2 with
    | nil =>
      rw [List.nil_append, List.cons_append] at h
      injection h with hb _
      subst hb
      exact absurd (List.mem_cons_self _ _) h1
    | cons b l2' =>
      rw [List.cons_append, List.cons_append] at h
      injection h with hb htl
      subst hb
      rw [ih l2' t1 t2 (fun hm => h1 (List.mem_cons_of_mem _ hm))
        (fun hm => h2 (List.mem_cons_of_mem _ hm)) htl]

/-- C9: within one template's expansion, identification keys do not
collide — for the concrete rules produced by `securityGroupRulesToAdd`,
once created and carrying pairwise distinct (underscore-free) backing
IDs, `ruleToID` yields pairwise distinct keys. -/
theorem claim_C9_no_key_collisions
    (findSG parseCIDR getSG : String → Option String) (rule : RuleState)
    (rules : List SecurityGroupRule) (bids : List String)
    (hexp : securityGroupRulesToAdd findSG parseCIDR rule = Except.ok rules)
    (hlen : bids.length = rules.length) (hnd : bids.Nodup)
    (hus : ∀ b ∈ bids, '_' ∉ b.data)
    (i j : Fin bids.length) (hij : i ≠ j) (ki kj : String)
    (hki : ruleToID getSG
      { rules.get (Fin.cast hlen i) with id := some (bids.get i) } =
        Except.ok ki)
    (hkj : ruleToID getSG
      { rules.get (Fin.cast hlen j) with id := some (bids.get j) } =
        Except.ok kj) :
    ki ≠ kj := by
  obtain ⟨r1, hk1⟩ := ruleToID_ok_shape getSG _ ki (bids.get i) rfl hki
  obtain ⟨r2, hk2⟩ := ruleToID_ok_shape getSG _ kj (bids.get j) rfl hkj
  intro hcon
  rw [hcon, hk2] at hk1
  have hb : bids.get j = bids.get i :=
    String.ext (append_cons_underscore_inj _ _ _ _
      (hus _ (bids.get_mem _ _)) (hus _ (bids.get_mem _ _)) hk1)
  exact hij ((List.Nodup.get_inj_iff hnd).mp hb.symm)

/-- C9 witness: a TCP template with two CIDR peers and one port expands
to two concrete rules; identified under distinct backing IDs `u1`, `u2`,
their keys differ. -/
theorem claim_C9_no_key_collisions_witness :
    ("u1_tcp_10.0.0.0/8_80-80" : String) ≠ "u2_tcp_10.1.0.0/8_80-80" :=
  claim_C9_no_key_collisions (fun _ => some "gid") (fun c => some c)
    (fun _ => none)
    { cidrList := ["10.0.0.0/8", "10.1.0.0/8"], protocol := "TCP",
      ports := ["80"] }
    [{ protocol := some "tcp", network := some "10.0.0.0/8",
       startPort := some 80, endPort := some 80 },
     { protocol := some "tcp", network := some "10.1.0.0/8",
       startPort := some 80, endPort := some 80 }]
    ["u1", "u2"] (by decide) (by decide) (by decide) (by decide)
    ⟨0, by decide⟩ ⟨1, by decide⟩ (by decide) _ _ (by decide) (by decide)

end SGRules
